import Mathlib

/- Shallow embedding of the two FastAPI services of this repository
(src/server/pymupdf_service.py and src/server/unstructured_service.py).

Conventions used throughout:
- Machine integers are Nat/Int.  Python's `int(x / y * k)` on the small
  magnitudes involved is modelled as Nat floor division `(x * k) / y`.
- The third-party parser (PyMuPDF / Unstructured) is opaque, matching the
  spec's scope: a `Doc` carries the opaque per-page text payloads the
  parser would return; the rendered thumbnail and the block payloads are
  opaque and the latter are not inspected by any claim, so a page record
  is modelled by its `number` and its opaque `text` payload.
- The `processing_cache[process_id]` entry of one job is the `Job`
  structure.  Each Python statement that writes that cache entry appends
  one snapshot to a `trace`; a `.update({...})` call is one snapshot.
- Fallible effects are driven by explicit environment arguments:
  `fitz.open` by an `Except String Doc`, a worker failure surfacing in
  `future.result()` by a `chunkFail : Nat -> Option String` map, and
  `os.unlink` succeeding by an `unlinkOk : Bool` flag.  `fileExists`
  tracks whether the job's temporary file still exists. -/

namespace RS

/-- Opaque view of an open PyMuPDF document (`fitz.open` result).
`pages` holds the opaque `page.get_text()` payloads, `pagesSorted` the
`page.get_text(sort=True)` payloads, `toc` the `doc.get_toc()` rows
`(level, title, page)`, `thumb` the opaque rendered first-page image. -/
structure Doc where
  metaTitle : String
  metaAuthor : String
  metaCreationDate : String
  pages : List String
  pagesSorted : List String
  toc : List (Nat × String × Nat)
  thumb : String
deriving DecidableEq, Repr

/-- Text payload of page `i`, `page.get_text()`. -/
def pageText (doc : Doc) (i : Nat) : String :=
  doc.pages.getD i ""

/-- Text payload of page `i`, `page.get_text(sort=True)`. -/
def pageTextSorted (doc : Doc) (i : Nat) : String :=
  doc.pagesSorted.getD i ""

/-- One per-page record of a chunk result (`{"number": i+1, "text": ...}`).
The `blocks` payload of the full-quality branch is opaque parser output
and is not modelled (no claim inspects it). -/
structure PageRec where
  number : Nat
  text : String
deriving DecidableEq, Repr

/-- A table-of-contents entry as built by `process_complete_pdf`
(`{"title": item[1], "page": item[2], "level": item[0]}`). -/
structure TocEntry where
  title : String
  page : Nat
  level : Nat
deriving DecidableEq, Repr

/-- The combined chunk result dictionary `{"text": [...], "pages": [...]}`. -/
structure ChunkResult where
  text : List String
  pages : List PageRec
deriving DecidableEq, Repr

/-- One `processing_cache[process_id]` entry.  Timestamps and the config
snapshot are omitted: no claim reads them. -/
structure Job where
  status : String
  progress : Nat
  filename : String
  error : Option String
  pageCount : Option Nat
  toc : Option (List TocEntry)
  result : Option ChunkResult
  pagesText : Option (List PageRec)
deriving DecidableEq, Repr

/-- The cache entry written by `parse_pdf` before its `try` block:
`{"status": "processing", "progress": 0, "filename": ..., ...}`. -/
def initialJob (filename : String) : Job :=
  { status := "processing", progress := 0, filename := filename,
    error := none, pageCount := none, toc := none,
    result := none, pagesText := none }

/-- A terminal cache entry: `status` is `"completed"` or `"error"`. -/
def isTerminal (j : Job) : Bool :=
  j.status == "completed" || j.status == "error"

/-- Basic metadata returned by `extract_fast_metadata`. -/
structure FastMetadata where
  title : String
  author : String
  pageCount : Nat
  creationDate : String
deriving DecidableEq, Repr

/-- Embeds `extract_fast_metadata` of pymupdf_service.py (the metadata
reads are opaque parser calls and cannot fail in the model, so the
`except` fallback is not reachable). -/
def extract_fast_metadata (doc : Doc) : FastMetadata :=
  { title := doc.metaTitle, author := doc.metaAuthor,
    pageCount := doc.pages.length, creationDate := doc.metaCreationDate }

/-- Embeds `extract_first_page_thumbnail`: `None` for an empty document,
otherwise the opaque rendered image (quality and zoom only change the
opaque bytes). -/
def extract_first_page_thumbnail (doc : Doc) (_low_quality : Bool) : Option String :=
  if doc.pages.length > 0 then some doc.thumb else none

/-- The data object of the immediate `parse_pdf` response (line 211 of
pymupdf_service.py). -/
structure SubmitData where
  processId : String
  metadata : FastMetadata
  thumbnail : Option String
  tableOfContents : List (Nat × String × Nat)
  pageCount : Nat
deriving DecidableEq, Repr

/-- Outcome of one `parse_pdf` call: the immediate processing response,
the error-branch response of the `except` handler, or an exception that
escapes the handler because it is raised before the `try` block. -/
inductive SubmitOutcome where
  | ok (data : SubmitData)
  | errResp (msg : String)
  | raised (msg : String)
deriving DecidableEq, Repr

/-- Embeds line 119 of pymupdf_service.py,
`use_parallel = strategy == "chunked" or len(multiprocessing.process_pool) > 1`.
The left operand short-circuits for `strategy == "chunked"`; otherwise the
right operand is evaluated and `multiprocessing.process_pool` does not
exist (the pool lives in the module global `process_pool`, not as an
attribute of the `multiprocessing` module), so an AttributeError is
raised. -/
def evalUseParallel (strategy : String) : Except String Bool :=
  if strategy = "chunked" then .ok true
  else .error "AttributeError: module multiprocessing has no attribute process_pool"

/-- Embeds Python's `chunkSize or PERFORMANCE_CONFIG["chunk_size"]`:
`None` and `0` are falsy and select the default. -/
def pyOrInt (v : Option Int) (dflt : Int) : Int :=
  match v with
  | none => dflt
  | some n => if n = 0 then dflt else n

/-- Embeds the synchronous part of the `parse_pdf` handler.  `doc?` is the
outcome of reading the upload and `fitz.open`; `uuid` the generated
uuid4 text.  Line 119 runs before the cache write and before `try`, so
its AttributeError escapes the handler (neither response is produced).
Inside `try`, a well-formed document yields the processing response;
an open failure yields the `except` branch response. -/
def parse_pdf (doc? : Except String Doc) (_filename : String)
    (low_quality priorityExtraction : Bool) (chunkSize : Option Int)
    (strategy : String) (uuid : String) : SubmitOutcome :=
  let use_low_quality := low_quality || false
  let use_priority := priorityExtraction || false
  let _chunk_size := pyOrInt chunkSize 50
  match evalUseParallel strategy with
  | .error e => .raised e
  | .ok _use_parallel =>
    match doc? with
    | .error e => .errResp e
    | .ok doc =>
      let metadata := extract_fast_metadata doc
      let first_page_image :=
        if !use_priority then extract_first_page_thumbnail doc use_low_quality
        else none
      let toc := if !use_priority && !doc.toc.isEmpty then doc.toc else []
      .ok { processId := "pdf_" ++ uuid
          , metadata := metadata
          , thumbnail := first_page_image
          , tableOfContents := toc.take 20
          , pageCount := doc.pages.length }

/-- Embeds one cache write `processing_cache[pid]["progress"] = v`:
an unconditional assignment with no monotonicity or terminality guard. -/
def setProgress (j : Job) (v : Nat) : Job :=
  { j with progress := v }

/-- Applies a sequence of progress writes in order. -/
def applyProgressWrites (j : Job) (ws : List Nat) : Job :=
  ws.foldl setProgress j

/-- Progress values written by the loop of `stream_rest_of_file` after
the initial `progress = 10` write: for each further chunk read, when
`file.size` is truthy, `min(30, int(total_size / file.size * 30))`. -/
def streamLoopWrites (fileSize : Option Nat) (total : Nat) : List Nat → List Nat
  | [] => []
  | c :: rest =>
    let t := total + c
    match fileSize with
    | some s =>
      if s ≠ 0 then min 30 ((t * 30) / s) :: streamLoopWrites fileSize t rest
      else streamLoopWrites fileSize t rest
    | none => streamLoopWrites fileSize t rest

/-- Embeds the progress writes of `stream_rest_of_file` (lines 163-178 of
pymupdf_service.py): first `10`, then the upload-tracking writes. -/
def streamProgressWrites (fileSize : Option Nat) (chunks : List Nat) : List Nat :=
  10 :: streamLoopWrites fileSize 0 chunks

/-- Embeds the chunk-plan loop of `process_pdf_in_parallel`
(`for i in range(0, page_count, chunk_size): end = min(i + chunk_size,
page_count); chunks.append((i, end))`), iterating from `i`.  The structural `fuel`
argument bounds the remaining iterations (the caller supplies enough); a
zero step would raise in Python, and the guard `0 < c` makes the model
return `[]` then. -/
def chunkPlanAux (c p : Nat) : Nat → Nat → List (Nat × Nat)
  | 0, _ => []
  | fuel + 1, i =>
    if i < p ∧ 0 < c then (i, min (i + c) p) :: chunkPlanAux c p fuel (i + c) else []

/-- The chunk plan of `process_pdf_in_parallel` for `page_count = p` and
`chunk_size = c`.  The loop advances `i` by `c ≥ 1` per iteration, so `p`
steps of fuel always suffice. -/
def chunkPlan (p c : Nat) : List (Nat × Nat) :=
  chunkPlanAux c p p 0

/-- The page record built by `process_pdf_chunk` for page index `i`: the
priority branch truncates the sorted text to 200 characters and appends
an ellipsis, the low-quality branch keeps the sorted text, the default
branch keeps the full text (its `blocks` payload is opaque parser
output, not modelled). -/
def chunkPageRec (doc : Doc) (low_quality priority_extraction : Bool) (i : Nat) : PageRec :=
  if priority_extraction then
    { number := i + 1, text := (pageTextSorted doc i).take 200 ++ "..." }
  else if low_quality then
    { number := i + 1, text := pageTextSorted doc i }
  else
    { number := i + 1, text := pageText doc i }

/-- Embeds `process_pdf_chunk` over the page range `[s, e)`. -/
def process_pdf_chunk (doc : Doc) (s e : Nat) (low_quality priority_extraction : Bool) :
    ChunkResult :=
  let idxs := List.range' s (e - s)
  { text := if priority_extraction then [] else idxs.map (pageText doc)
  , pages := idxs.map (chunkPageRec doc low_quality priority_extraction) }

/-- Embeds the future-consumption loop of `process_pdf_in_parallel`
(lines 308-315).  `future.result()` is waited on in submission order;
`chunkFail i` is the exception the `i`-th worker raised, if any; on the
first failing `result()` the loop is abandoned (the exception falls
through to the handler's `except` branch).  Returns the progress-write
snapshots, the final loop-local cache state, and the combined result or
the first error. -/
def consumeChunks (doc : Doc) (chunkFail : Nat → Option String)
    (low_quality priority_extraction : Bool) (n : Nat) :
    List (Nat × Nat) → Nat → ChunkResult → Job →
    List Job × Job × Except String ChunkResult
  | [], _, acc, j => ([], j, .ok acc)
  | se :: rest, i, acc, j =>
    match chunkFail i with
    | some msg => ([], j, .error msg)
    | none =>
      let r := process_pdf_chunk doc se.1 se.2 low_quality priority_extraction
      let acc2 : ChunkResult :=
        { text := acc.text ++ r.text, pages := acc.pages ++ r.pages }
      let j2 := setProgress j (35 + (55 * (i + 1)) / n)
      let out := consumeChunks doc chunkFail low_quality priority_extraction n
        rest (i + 1) acc2 j2
      (j2 :: out.1, out.2)

/-- Result of one background-processing run: the cache-write snapshots in
order, the final cache entry, and whether the temporary file still
exists afterwards. -/
structure RunOut where
  trace : List Job
  final : Job
  fileExists : Bool
deriving DecidableEq, Repr

/-- Embeds `process_pdf_in_parallel` (lines 272-326 of
pymupdf_service.py).  On `fitz.open` failure the `except` branch writes
`status` then `error`.  Otherwise: `progress = 35`, `pageCount`, the
chunk plan, the consumption loop, then the finalisation writes `status`,
`progress = 100`, `result` (the `end_time` write is omitted: untracked
field).  On a chunk failure the `except` branch writes `status` then
`error`.  No path touches the temporary file: the function contains no
`os.unlink` call, so `fileExists` is returned unchanged. -/
def process_pdf_in_parallel (doc? : Except String Doc)
    (chunkFail : Nat → Option String) (chunk_size : Nat)
    (low_quality priority_extraction : Bool) (j0 : Job) (fs0 : Bool) : RunOut :=
  match doc? with
  | .error e =>
    let jE1 := { j0 with status := "error" }
    let jE2 := { jE1 with error := some e }
    { trace := [jE1, jE2], final := jE2, fileExists := fs0 }
  | .ok doc =>
    let page_count := doc.pages.length
    let j1 := setProgress j0 35
    let j2 := { j1 with pageCount := some page_count }
    let chunks := chunkPlan page_count chunk_size
    let n := chunks.length
    let out := consumeChunks doc chunkFail low_quality priority_extraction n
      chunks 0 { text := [], pages := [] } j2
    match out.2.2 with
    | .error msg =>
      let jE1 := { out.2.1 with status := "error" }
      let jE2 := { jE1 with error := some msg }
      { trace := j1 :: j2 :: (out.1 ++ [jE1, jE2]), final := jE2, fileExists := fs0 }
    | .ok acc =>
      let jC1 := { out.2.1 with status := "completed" }
      let jC2 := setProgress jC1 100
      let jC3 := { jC2 with result := some acc }
      { trace := j1 :: j2 :: (out.1 ++ [jC1, jC2, jC3]), final := jC3, fileExists := fs0 }

/-- Embeds the Python slice-and-ellipsis `text[:2000] + ("..." if
len(text) > 2000 else "")` of `process_complete_pdf`. -/
def pyTruncate2000 (s : String) : String :=
  if 2000 < s.length then s.take 2000 ++ "..." else s

/-- The per-page records accumulated by `process_complete_pdf` over
`for i in range(min(50, page_count))`. -/
def completePagesText (doc : Doc) (m : Nat) : List PageRec :=
  (List.range m).map (fun i => { number := i + 1, text := pyTruncate2000 (pageText doc i) })

/-- The per-iteration progress writes of the `process_complete_pdf` page
loop: `40 + int(i / min(50, page_count) * 50)` for each processed page. -/
def completeLoopWrites (j : Job) (m : Nat) : List Job :=
  (List.range m).map (fun i => setProgress j (40 + (i * 50) / m))

/-- Embeds `process_complete_pdf` (lines 389-451 of pymupdf_service.py).
On `fitz.open` failure the `except` branch performs one `.update` write,
then the guarded cleanup (`if os.path.exists: os.unlink` inside
`try/except: pass`) deletes the file when the unlink succeeds.  On the
main path: `progress = 25`, `progress = 40`, `tableOfContents`, one
progress write per processed page, then one finalising `.update` with
`status = "completed"`, `progress = 100`, `pagesText`, `pageCount`.
The following bare `os.unlink(pdf_path)` is still inside the `try`: if
it raises (file missing or `unlinkOk = false`) the `except` branch
overwrites the already-completed entry with `status = "error"` and runs
the guarded cleanup. -/
def process_complete_pdf (doc? : Except String Doc) (unlinkOk : Bool)
    (j0 : Job) (fs0 : Bool) : RunOut :=
  match doc? with
  | .error e =>
    let jE := { j0 with status := "error", error := some e }
    { trace := [jE], final := jE, fileExists := fs0 && !unlinkOk }
  | .ok doc =>
    let page_count := doc.pages.length
    let j1 := setProgress j0 25
    let table_of_contents := doc.toc.map (fun row => TocEntry.mk row.2.1 row.2.2 row.1)
    let j2 := setProgress j1 40
    let j3 := { j2 with toc := some table_of_contents }
    let m := min 50 page_count
    let loopTr := completeLoopWrites j3 m
    let jLoop := (loopTr.getLast?).getD j3
    let jFin := { jLoop with
                  status := "completed"
                  progress := 100
                  pagesText := some (completePagesText doc m)
                  pageCount := some page_count }
    if fs0 && unlinkOk then
      { trace := j1 :: j2 :: j3 :: (loopTr ++ [jFin]), final := jFin, fileExists := false }
    else
      let jE := { jFin with status := "error", error := some "unlink raised" }
      { trace := j1 :: j2 :: j3 :: (loopTr ++ [jFin, jE]), final := jE,
        fileExists := fs0 && !unlinkOk }

/-- Embeds Python `int(q)` on a rational (truncation toward zero), as
applied to `start_time` in unstructured_service.py. -/
def pyInt (q : ℚ) : Int :=
  q.num.tdiv q.den

/-- Embeds `process_id = f"doc_{int(start_time)}"` of
`extract_document` in unstructured_service.py (lines 56-57). -/
def docProcessId (startTime : ℚ) : String :=
  "doc_" ++ toString (pyInt startTime)

/-- Metadata of one Unstructured element: optional attributes probed with
`hasattr`, each holding a possibly empty string. -/
structure ElementMetadata where
  title : Option String
  author : Option String
  created : Option String
deriving DecidableEq, Repr

/-- One Unstructured element as consumed by
`extract_metadata_from_elements` (only its optional `metadata`
attribute matters there). -/
structure UElement where
  category : String
  text : String
  metadata : Option ElementMetadata
deriving DecidableEq, Repr

/-- The metadata dictionary built by `extract_metadata_from_elements`:
exactly the four keys of its initialiser. -/
structure DocMeta where
  title : String
  author : String
  date : String
  source : String
deriving DecidableEq, Repr

/-- Python truthiness of an optional string attribute: present and
non-empty. -/
def truthyStr : Option String → Option String
  | some t => if t = "" then none else some t
  | none => none

/-- One loop iteration of `extract_metadata_from_elements`: each truthy
attribute overwrites the corresponding key. -/
def metaStep (m : DocMeta) (el : UElement) : DocMeta :=
  match el.metadata with
  | none => m
  | some md =>
    let m1 := match truthyStr md.title with
      | some t => { m with title := t }
      | none => m
    let m2 := match truthyStr md.author with
      | some a => { m1 with author := a }
      | none => m1
    match truthyStr md.created with
    | some d => { m2 with date := d }
    | none => m2

/-- Embeds `extract_metadata_from_elements` of unstructured_service.py
(lines 186-210). -/
def extract_metadata_from_elements (elements : List UElement) (filename : String) : DocMeta :=
  elements.foldl metaStep
    { title := filename, author := "", date := "", source := "" }

/-- The sequence of truthy titles carried by the elements, in order. -/
def truthyTitles (elements : List UElement) : List String :=
  elements.filterMap (fun el => el.metadata.bind (fun md => truthyStr md.title))

/- Helper lemmas about the chunk-plan loop. -/

theorem chunkPlanAux_mem (c p : Nat) :
    ∀ (fuel : Nat), ∀ (i : Nat), ∀ se ∈ chunkPlanAux c p fuel i,
      i ≤ se.1 ∧ se.1 < se.2 ∧ se.2 ≤ p ∧ se.2 - se.1 ≤ c := by
  intro fuel
  induction fuel with
  | zero =>
    intro i se hse
    simp [chunkPlanAux] at hse
  | succ fuel ih =>
    intro i se hse
    rw [chunkPlanAux] at hse
    by_cases hi : i < p ∧ 0 < c
    · rw [if_pos hi] at hse
      rcases List.mem_cons.mp hse with h | h
      · subst h
        refine ⟨le_refl _, ?_, ?_, ?_⟩ <;> simp <;> omega
      · have := ih (i + c) se h
        omega
    · rw [if_neg hi] at hse
      simp at hse

theorem chunkPlanAux_cover (c p : Nat) (hc : 0 < c) :
    ∀ (fuel : Nat), ∀ (i : Nat), p - i ≤ fuel → ∀ x : Nat,
      (∃ se ∈ chunkPlanAux c p fuel i, se.1 ≤ x ∧ x < se.2) ↔ (i ≤ x ∧ x < p) := by
  intro fuel
  induction fuel with
  | zero =>
    intro i hf x
    simp only [chunkPlanAux]
    simp only [List.not_mem_nil, false_and, exists_false, exists_and_left, false_iff, not_and,
      not_lt]
    omega
  | succ fuel ih =>
    intro i hf x
    rw [chunkPlanAux]
    by_cases hi : i < p ∧ 0 < c
    · rw [if_pos hi]
      constructor
      · rintro ⟨se, hse, hx1, hx2⟩
        rcases List.mem_cons.mp hse with h | h
        · subst h
          simp only at hx1 hx2
          have : x < min (i + c) p := hx2
          omega
        · have := chunkPlanAux_mem c p fuel (i + c) se h
          omega
      · rintro ⟨h1, h2⟩
        by_cases hx : x < min (i + c) p
        · exact ⟨(i, min (i + c) p), by simp, h1, hx⟩
        · have hx2 : i + c ≤ x := by omega
          have hf2 : p - (i + c) ≤ fuel := by omega
          obtain ⟨se, hse, h⟩ := (ih (i + c) hf2 x).mpr ⟨hx2, h2⟩
          exact ⟨se, by simp [hse], h⟩
    · rw [if_neg hi]
      simp only [List.not_mem_nil, false_and, exists_false, exists_and_left, false_iff, not_and,
        not_lt]
      omega

theorem chunkPlanAux_length (c p : Nat) (hc : 0 < c) :
    ∀ (fuel : Nat), ∀ (i : Nat), p - i ≤ fuel →
      (chunkPlanAux c p fuel i).length = (p - i + c - 1) / c := by
  intro fuel
  induction fuel with
  | zero =>
    intro i hf
    have h1 : p - i = 0 := by omega
    rw [chunkPlanAux, h1]
    simp only [List.length_nil]
    exact (Nat.div_eq_of_lt (by omega)).symm
  | succ fuel ih =>
    intro i hf
    rw [chunkPlanAux]
    by_cases hi : i < p ∧ 0 < c
    · rw [if_pos hi]
      have hf2 : p - (i + c) ≤ fuel := by omega
      simp only [List.length_cons, ih (i + c) hf2]
      rcases Nat.lt_or_ge (p - i) c with h | h
      · have h1 : p - (i + c) = 0 := by omega
        rw [h1]
        have h2 : (0 + c - 1) / c = 0 := Nat.div_eq_of_lt (by omega)
        have h3 : (p - i + c - 1) / c = 1 :=
          Nat.div_eq_of_lt_le (by omega) (by omega)
        omega
      · have h1 : p - (i + c) = p - i - c := by omega
        have h2 : p - i + c - 1 = (p - i - c + c - 1) + c := by omega
        rw [h1, h2, Nat.add_div_right _ hc]
    · rw [if_neg hi]
      have h1 : p - i = 0 := by omega
      rw [h1]
      simp only [List.length_nil]
      exact (Nat.div_eq_of_lt (by omega)).symm

theorem chunkPlanAux_flat (c p : Nat) (hc : 0 < c) :
    ∀ (fuel : Nat), ∀ (i : Nat), p - i ≤ fuel →
      (chunkPlanAux c p fuel i).flatMap (fun se => List.range' se.1 (se.2 - se.1))
        = List.range' i (p - i) := by
  intro fuel
  induction fuel with
  | zero =>
    intro i hf
    have h1 : p - i = 0 := by omega
    rw [chunkPlanAux, h1]
    simp
  | succ fuel ih =>
    intro i hf
    rw [chunkPlanAux]
    by_cases hi : i < p ∧ 0 < c
    · rw [if_pos hi]
      have hf2 : p - (i + c) ≤ fuel := by omega
      rw [List.flatMap_cons, ih (i + c) hf2]
      rcases Nat.lt_or_ge p (i + c) with h | h
      · have h1 : min (i + c) p = p := by omega
        have h2 : p - (i + c) = 0 := by omega
        rw [h1, h2]
        simp
      · have h1 : min (i + c) p = i + c := by omega
        rw [h1]
        have h2 : i + c - i = c := by omega
        rw [h2]
        have h3 := List.range'_append i c (p - (i + c)) 1
        simp only [one_mul, Nat.mul_one] at h3
        dsimp only
        rw [h3]
        congr 1
        omega
    · rw [if_neg hi]
      have h1 : p - i = 0 := by omega
      rw [h1]
      simp

theorem chunkPlanAux_pairwise (c p : Nat) :
    ∀ (fuel : Nat), ∀ (i : Nat),
      List.Pairwise (fun a b : Nat × Nat => a.2 ≤ b.1) (chunkPlanAux c p fuel i) := by
  intro fuel
  induction fuel with
  | zero =>
    intro i
    rw [chunkPlanAux]
    exact List.Pairwise.nil
  | succ fuel ih =>
    intro i
    rw [chunkPlanAux]
    by_cases hi : i < p ∧ 0 < c
    · rw [if_pos hi]
      refine List.Pairwise.cons ?_ (ih (i + c))
      intro b hb
      have := chunkPlanAux_mem c p fuel (i + c) b hb
      simp only
      omega
    · rw [if_neg hi]
      exact List.Pairwise.nil

theorem chunkPlanAux_chain (c p : Nat) :
    ∀ (fuel : Nat), ∀ (i : Nat),
      List.Chain' (fun a b : Nat × Nat => a.2 = b.1) (chunkPlanAux c p fuel i) := by
  intro fuel
  induction fuel with
  | zero =>
    intro i
    rw [chunkPlanAux]
    exact List.chain'_nil
  | succ fuel ih =>
    intro i
    rw [chunkPlanAux]
    by_cases hi : i < p ∧ 0 < c
    · rw [if_pos hi]
      rw [List.chain'_cons']
      refine ⟨?_, ih (i + c)⟩
      intro b hb
      rcases fuel with _ | fuel2
      · rw [chunkPlanAux] at hb
        simp at hb
      · rw [chunkPlanAux] at hb
        by_cases h2 : i + c < p ∧ 0 < c
        · rw [if_pos h2] at hb
          simp only [List.head?_cons, Option.mem_def, Option.some.injEq] at hb
          subst hb
          simp only
          omega
        · rw [if_neg h2] at hb
          simp at hb
    · rw [if_neg hi]
      exact List.chain'_nil

/- Generic list helpers shared by several proofs. -/

theorem getLastGetD_cons {α : Type} (a : α) (l : List α) (d : α) :
    ((a :: l).getLast?).getD d = (l.getLast?).getD a := by
  rcases l with _ | ⟨b, t⟩
  · rfl
  · rw [List.getLast?_cons_cons]
    rcases h : (b :: t).getLast? with _ | y
    · simp at h
    · rfl

theorem range'_map_succ (s n : Nat) :
    (List.range' s n).map (fun k => k + 1) = List.range' (s + 1) n := by
  induction n generalizing s with
  | zero => rfl
  | succ n ih =>
    rw [List.range'_succ, List.range'_succ, List.map_cons, ih]

theorem range'_getLast (s n : Nat) :
    (List.range' s (n + 1)).getLast? = some (s + n) := by
  induction n generalizing s with
  | zero => rfl
  | succ n ih =>
    rw [List.range'_succ]
    rcases h : List.range' (s + 1) (n + 1) with _ | ⟨b, l⟩
    · exact absurd h (by simp [List.range'_succ])
    · rw [List.getLast?_cons_cons, ← h, ih]
      congr 1
      omega

/- Helper lemmas about the future-consumption loop. -/

theorem chunkPageRec_number (doc : Doc) (lq pr : Bool) (i : Nat) :
    (chunkPageRec doc lq pr i).number = i + 1 := by
  rcases lq <;> rcases pr <;> rfl

theorem consume_trace_fields (doc : Doc) (cf : Nat → Option String) (lq pr : Bool) (n : Nat) :
    ∀ (chunks : List (Nat × Nat)) (i : Nat) (acc : ChunkResult) (j : Job),
      ∀ x ∈ (consumeChunks doc cf lq pr n chunks i acc j).1,
        x.status = j.status ∧ x.error = j.error := by
  intro chunks
  induction chunks with
  | nil =>
    intro i acc j x hx
    simp [consumeChunks] at hx
  | cons se rest ih =>
    intro i acc j x hx
    rw [consumeChunks] at hx
    rcases h : cf i with _ | msg
    · rw [h] at hx
      simp only at hx
      rcases List.mem_cons.mp hx with h2 | h2
      · subst h2
        exact ⟨rfl, rfl⟩
      · have h3 := ih (i + 1)
          { text := acc.text ++ (process_pdf_chunk doc se.1 se.2 lq pr).text
          , pages := acc.pages ++ (process_pdf_chunk doc se.1 se.2 lq pr).pages }
          (setProgress j (35 + (55 * (i + 1)) / n)) x h2
        exact h3
    · rw [h] at hx
      simp at hx

theorem consume_final_fields (doc : Doc) (cf : Nat → Option String) (lq pr : Bool) (n : Nat) :
    ∀ (chunks : List (Nat × Nat)) (i : Nat) (acc : ChunkResult) (j : Job),
      ((consumeChunks doc cf lq pr n chunks i acc j).2.1).status = j.status ∧
      ((consumeChunks doc cf lq pr n chunks i acc j).2.1).error = j.error := by
  intro chunks
  induction chunks with
  | nil =>
    intro i acc j
    exact ⟨rfl, rfl⟩
  | cons se rest ih =>
    intro i acc j
    rw [consumeChunks]
    rcases h : cf i with _ | msg
    · simp only
      exact ih (i + 1) _ _
    · exact ⟨rfl, rfl⟩

theorem consume_ok_pages (doc : Doc) (lq pr : Bool) (n : Nat) :
    ∀ (chunks : List (Nat × Nat)) (i : Nat) (acc : ChunkResult) (j : Job),
      ∃ r, (consumeChunks doc (fun _ => none) lq pr n chunks i acc j).2.2 = Except.ok r ∧
        r.pages = acc.pages ++
          chunks.flatMap
            (fun se => (List.range' se.1 (se.2 - se.1)).map (chunkPageRec doc lq pr)) := by
  intro chunks
  induction chunks with
  | nil =>
    intro i acc j
    exact ⟨acc, rfl, by simp⟩
  | cons se rest ih =>
    intro i acc j
    rw [consumeChunks]
    simp only
    obtain ⟨r, hr, hp⟩ := ih (i + 1)
      { text := acc.text ++ (process_pdf_chunk doc se.1 se.2 lq pr).text
      , pages := acc.pages ++ (process_pdf_chunk doc se.1 se.2 lq pr).pages }
      (setProgress j (35 + (55 * (i + 1)) / n))
    refine ⟨r, hr, ?_⟩
    rw [hp]
    simp only [process_pdf_chunk, List.flatMap_cons, List.append_assoc]

theorem consume_progress_map (doc : Doc) (lq pr : Bool) (n : Nat) :
    ∀ (chunks : List (Nat × Nat)) (i : Nat) (acc : ChunkResult) (j : Job),
      ((consumeChunks doc (fun _ => none) lq pr n chunks i acc j).1).map (fun x => x.progress)
        = (List.range' (i + 1) chunks.length).map (fun k => 35 + (55 * k) / n) := by
  intro chunks
  induction chunks with
  | nil =>
    intro i acc j
    rfl
  | cons se rest ih =>
    intro i acc j
    rw [consumeChunks]
    rw [List.length_cons, List.range'_succ, List.map_cons]
    simp only [List.map_cons]
    congr 1
    exact ih (i + 1) _ _

/- Terminality along a trace of cache writes. -/

/-- Terminality is absorbing along a trace: every snapshot at or after a
terminal snapshot is terminal. -/
def terminalAbsorbing (l : List Job) : Prop :=
  ∀ (i j : Nat) (hi : i < l.length) (hj : j < l.length),
    i ≤ j → isTerminal (l.get ⟨i, hi⟩) = true → isTerminal (l.get ⟨j, hj⟩) = true

theorem absorb_of_split (pre post : List Job)
    (hpre : ∀ x ∈ pre, isTerminal x = false)
    (hpost : ∀ x ∈ post, isTerminal x = true) :
    terminalAbsorbing (pre ++ post) := by
  intro i j hi hj hij hterm
  have hip : ¬ i < pre.length := by
    intro hlt
    have hx : (pre ++ post).get ⟨i, hi⟩ = pre.get ⟨i, hlt⟩ := by
      rw [List.get_eq_getElem, List.get_eq_getElem, List.getElem_append_left hlt]
    rw [hx] at hterm
    have hf := hpre (pre.get ⟨i, hlt⟩) (List.get_mem pre i hlt)
    rw [hf] at hterm
    exact absurd hterm (by decide)
  have hjp : pre.length ≤ j := by omega
  have hjlt : j - pre.length < post.length := by
    have := List.length_append pre post
    omega
  have hx : (pre ++ post).get ⟨j, hj⟩ = post.get ⟨j - pre.length, hjlt⟩ := by
    rw [List.get_eq_getElem, List.get_eq_getElem, List.getElem_append_right hjp]
  rw [hx]
  exact hpost (post.get ⟨j - pre.length, hjlt⟩) (List.get_mem post (j - pre.length) hjlt)

/- Helper lemmas about the page loop of `process_complete_pdf`. -/

theorem completeLoop_mem_fields (j : Job) (m : Nat) :
    ∀ x ∈ completeLoopWrites j m, x.status = j.status ∧ x.error = j.error := by
  intro x hx
  simp only [completeLoopWrites, List.mem_map] at hx
  obtain ⟨i, _, hx⟩ := hx
  subst hx
  exact ⟨rfl, rfl⟩

theorem completeLoop_last_fields (j : Job) (m : Nat) :
    (((completeLoopWrites j m).getLast?).getD j).status = j.status ∧
    (((completeLoopWrites j m).getLast?).getD j).error = j.error := by
  rcases h : (completeLoopWrites j m).getLast? with _ | x
  · simp
  · have hx : x ∈ completeLoopWrites j m := List.mem_of_mem_getLast? h
    have := completeLoop_mem_fields j m x hx
    simpa using this

/- Concrete documents used by witnesses and counterexamples. -/

/-- A concrete well-formed document with `p` pages. -/
def mkDoc (p : Nat) : Doc :=
  { metaTitle := "T", metaAuthor := "A", metaCreationDate := "D",
    pages := List.replicate p "pg", pagesSorted := List.replicate p "sg",
    toc := [(1, "c1", 1)], thumb := "th" }

/-- Chunk-failure map making worker 0 raise. -/
def failFirst : Nat → Option String :=
  fun k => if k = 0 then some "boom" else none

/- Helper lemmas for the Unstructured metadata extraction. -/

theorem metaStep_fields (m : DocMeta) (el : UElement) :
    (metaStep m el).source = m.source ∧
    (metaStep m el).title =
      ((el.metadata.bind (fun md => truthyStr md.title)).getD m.title) := by
  rcases el with ⟨cat, tx, md?⟩
  rcases md? with _ | md
  · exact ⟨rfl, rfl⟩
  · rcases h1 : truthyStr md.title with _ | t <;>
      rcases h2 : truthyStr md.author with _ | a <;>
        rcases h3 : truthyStr md.created with _ | d <;>
          simp [metaStep, h1, h2, h3]

theorem extract_meta_general :
    ∀ (elements : List UElement) (m : DocMeta),
      (elements.foldl metaStep m).source = m.source ∧
      (elements.foldl metaStep m).title = ((truthyTitles elements).getLast?).getD m.title := by
  intro elements
  induction elements with
  | nil =>
    intro m
    exact ⟨rfl, rfl⟩
  | cons el rest ih =>
    intro m
    rw [List.foldl_cons]
    obtain ⟨hs, ht⟩ := ih (metaStep m el)
    obtain ⟨hs2, ht2⟩ := metaStep_fields m el
    constructor
    · rw [hs, hs2]
    · rw [ht, ht2]
      rcases h : el.metadata.bind (fun md => truthyStr md.title) with _ | t
      · simp only [truthyTitles, List.filterMap_cons, h, Option.getD_none]
      · simp only [truthyTitles, List.filterMap_cons, h, Option.getD_some]
        rw [getLastGetD_cons]

/-- C10: for every element list and filename, the metadata record built by
`extract_metadata_from_elements` has exactly the four fields of `DocMeta`
(by construction of the initial dictionary), its `source` stays the empty
string, and its `title` is the supplied filename when no element carries a
truthy (present, non-empty) metadata title, and otherwise the title of the
last element carrying one (later elements overwrite earlier ones). -/
theorem extract_metadata_spec (elements : List UElement) (filename : String) :
    (extract_metadata_from_elements elements filename).source = "" ∧
    (extract_metadata_from_elements elements filename).title
      = ((truthyTitles elements).getLast?).getD filename :=
  extract_meta_general elements
    { title := filename, author := "", date := "", source := "" }

/-- C2 (amended): a progress update is an unconditional overwrite — after
any sequence of `processing_cache[pid]["progress"] = v` writes the stored
progress equals the last written value whatever the previous value or the
job's status, and the status is never consulted nor changed. -/
theorem applyProgressWrites_spec (j : Job) (ws : List Nat) :
    (applyProgressWrites j ws).progress = (ws.getLast?).getD j.progress ∧
    (applyProgressWrites j ws).status = j.status := by
  induction ws generalizing j with
  | nil => exact ⟨rfl, rfl⟩
  | cons w rest ih =>
    obtain ⟨h1, h2⟩ := ih (setProgress j w)
    constructor
    · rw [show applyProgressWrites j (w :: rest)
          = applyProgressWrites (setProgress j w) rest from rfl]
      rw [h1, getLastGetD_cons]
      rfl
    · exact h2

/-- C2 counterexample: the write sequence actually produced by
`stream_rest_of_file` for a 100-byte upload whose remainder arrives as one
10-byte chunk is `[10, 3]`; the second write carries a smaller value than
the stored progress 10 and the claim says it is ignored, yet the stored
progress becomes 3. -/
theorem stream_progress_regression :
    streamProgressWrites (some 100) [10] = [10, 3] ∧
    (applyProgressWrites (initialJob "doc.pdf")
        (streamProgressWrites (some 100) [10])).progress = 3 ∧
    ¬ (applyProgressWrites (initialJob "doc.pdf")
        (streamProgressWrites (some 100) [10])).progress = 10 := by
  refine ⟨by decide, by decide, by decide⟩

/-- C1 (code_bug evidence): with a well-formed document and the default
strategy hint `"standard"`, `parse_pdf` raises an AttributeError from line
119 before the `try` block — neither the processing response nor the
error-branch response is produced; the same well-formed document with the
`"chunked"` hint short-circuits line 119 and yields the full processing
response (job id, metadata, thumbnail, truncated TOC, page count). -/
theorem parse_pdf_default_strategy_raises :
    parse_pdf (Except.ok (mkDoc 60)) "a.pdf" false false none "standard" "u1"
      = SubmitOutcome.raised
          "AttributeError: module multiprocessing has no attribute process_pool" ∧
    parse_pdf (Except.ok (mkDoc 60)) "a.pdf" false false none "chunked" "u1"
      = SubmitOutcome.ok
          { processId := "pdf_u1"
          , metadata := extract_fast_metadata (mkDoc 60)
          , thumbnail := some (mkDoc 60).thumb
          , tableOfContents := (mkDoc 60).toc.take 20
          , pageCount := 60 } := by
  constructor
  · rfl
  · rfl

/-- C5: for every page count `p` and chunk size `c > 0`, the chunk plan of
`process_pdf_in_parallel` has `ceil(p / c)` chunks, consecutive chunks are
contiguous, chunks are pairwise non-overlapping and in increasing page
order, each chunk is non-empty of length at most `c`, and together the
chunks cover exactly the page interval from 0 to `p`. -/
theorem chunkPlan_spec (p c : Nat) (hc : 0 < c) :
    (chunkPlan p c).length = (p + c - 1) / c ∧
    (∀ x : Nat, (∃ se ∈ chunkPlan p c, se.1 ≤ x ∧ x < se.2) ↔ x < p) ∧
    List.Chain' (fun a b : Nat × Nat => a.2 = b.1) (chunkPlan p c) ∧
    List.Pairwise (fun a b : Nat × Nat => a.2 ≤ b.1) (chunkPlan p c) ∧
    (∀ se ∈ chunkPlan p c, se.1 < se.2 ∧ se.2 - se.1 ≤ c) := by
  refine ⟨?_, ?_, chunkPlanAux_chain c p p 0, chunkPlanAux_pairwise c p p 0, ?_⟩
  · have h := chunkPlanAux_length c p hc p 0 (by omega)
    simpa [chunkPlan] using h
  · intro x
    have h := chunkPlanAux_cover c p hc p 0 (by omega) x
    simpa [chunkPlan] using h
  · intro se hse
    have h := chunkPlanAux_mem c p p 0 se hse
    exact ⟨h.2.1, h.2.2.2⟩

/-- C5 witness at the spec's end-to-end scenario: 120 pages with chunk
size 50 (plan `[(0,50), (50,100), (100,120)]`). -/
theorem chunkPlan_spec_witness :
    0 < 50 ∧
    ((chunkPlan 120 50).length = (120 + 50 - 1) / 50 ∧
     (∀ x : Nat, (∃ se ∈ chunkPlan 120 50, se.1 ≤ x ∧ x < se.2) ↔ x < 120) ∧
     List.Chain' (fun a b : Nat × Nat => a.2 = b.1) (chunkPlan 120 50) ∧
     List.Pairwise (fun a b : Nat × Nat => a.2 ≤ b.1) (chunkPlan 120 50) ∧
     (∀ se ∈ chunkPlan 120 50, se.1 < se.2 ∧ se.2 - se.1 ≤ 50)) :=
  ⟨by decide, chunkPlan_spec 120 50 (by decide)⟩

theorem pyInt_at_100_2 : pyInt (501 / 5 : ℚ) = 100 := by
  have h1 : ((501 : ℚ) / 5).num = 501 := by norm_num
  have h2 : ((501 : ℚ) / 5).den = 5 := by norm_num
  unfold pyInt
  rw [h1, h2]
  decide

theorem pyInt_at_100_7 : pyInt (1007 / 10 : ℚ) = 100 := by
  have h1 : ((1007 : ℚ) / 10).num = 1007 := by norm_num
  have h2 : ((1007 : ℚ) / 10).den = 10 := by norm_num
  unfold pyInt
  rw [h1, h2]
  decide

/-- C7 counterexample: two distinct submissions whose `start_time`s are
100.2 and 100.7 seconds receive the same id `doc_100` from
`extract_document`, so ids are not collision-free. -/
theorem docProcessId_collision :
    docProcessId (501 / 5 : ℚ) = docProcessId (1007 / 10 : ℚ) ∧
    (501 / 5 : ℚ) ≠ (1007 / 10 : ℚ) := by
  constructor
  · unfold docProcessId
    rw [pyInt_at_100_2, pyInt_at_100_7]
  · norm_num

/-- C7 (amended): the job id of the Unstructured service is derived solely
from the whole-second truncation of the submission time, so any two
submissions whose times truncate to the same second receive identical
ids. -/
theorem docProcessId_same_second (t1 t2 : ℚ) (h : pyInt t1 = pyInt t2) :
    docProcessId t1 = docProcessId t2 := by
  unfold docProcessId
  rw [h]

/-- C7 witness: the times 100.2 and 100.7 truncate to the same second and
indeed receive the same id. -/
theorem docProcessId_same_second_witness :
    pyInt (501 / 5 : ℚ) = pyInt (1007 / 10 : ℚ) ∧
    docProcessId (501 / 5 : ℚ) = docProcessId (1007 / 10 : ℚ) :=
  ⟨by simp [pyInt_at_100_2, pyInt_at_100_7],
   docProcessId_same_second _ _ (by simp [pyInt_at_100_2, pyInt_at_100_7])⟩

/- Case characterisations of the final cache entry of the two background
processors. -/

theorem parallel_final_cases (doc? : Except String Doc) (cf : Nat → Option String)
    (cs : Nat) (lq pr : Bool) (j0 : Job) (fs0 : Bool) :
    (∃ m, (process_pdf_in_parallel doc? cf cs lq pr j0 fs0).final.status = "error" ∧
          (process_pdf_in_parallel doc? cf cs lq pr j0 fs0).final.error = some m) ∨
    ((process_pdf_in_parallel doc? cf cs lq pr j0 fs0).final.status = "completed" ∧
     (process_pdf_in_parallel doc? cf cs lq pr j0 fs0).final.progress = 100 ∧
     (process_pdf_in_parallel doc? cf cs lq pr j0 fs0).final.error = j0.error) := by
  rcases doc? with e | doc
  · left
    exact ⟨e, rfl, rfl⟩
  · simp only [process_pdf_in_parallel]
    split
    · left
      exact ⟨_, rfl, rfl⟩
    · right
      refine ⟨rfl, rfl, ?_⟩
      exact ((consume_final_fields _ _ _ _ _ _ _ _ _).2).trans rfl

theorem complete_final_cases (doc? : Except String Doc) (unlinkOk : Bool)
    (j0 : Job) (fs0 : Bool) :
    (∃ m, (process_complete_pdf doc? unlinkOk j0 fs0).final.status = "error" ∧
          (process_complete_pdf doc? unlinkOk j0 fs0).final.error = some m) ∨
    ((process_complete_pdf doc? unlinkOk j0 fs0).final.status = "completed" ∧
     (process_complete_pdf doc? unlinkOk j0 fs0).final.progress = 100 ∧
     (process_complete_pdf doc? unlinkOk j0 fs0).final.error = j0.error) := by
  rcases doc? with e | doc
  · left
    exact ⟨e, rfl, rfl⟩
  · simp only [process_complete_pdf]
    split
    · right
      refine ⟨rfl, rfl, ?_⟩
      exact ((completeLoop_last_fields _ _).2).trans rfl
    · left
      exact ⟨"unlink raised", rfl, rfl⟩

/-- C3 (amended): in the final cache entry of either background processor,
a Completed status is accompanied by progress 100 and an absent error
field, and a Failed (status `"error"`) entry always carries an error
description.  The transition into Failed, however, does not force
progress to 100 (see the counterexample), so `progress == 100` iff
terminal does not hold. -/
theorem final_status_invariants (doc? : Except String Doc) (cf : Nat → Option String)
    (cs : Nat) (lq pr : Bool) (f : String) (fs0 unlinkOk : Bool) :
    (((process_pdf_in_parallel doc? cf cs lq pr (initialJob f) fs0).final.status = "completed" →
        (process_pdf_in_parallel doc? cf cs lq pr (initialJob f) fs0).final.progress = 100 ∧
        (process_pdf_in_parallel doc? cf cs lq pr (initialJob f) fs0).final.error = none) ∧
     ((process_pdf_in_parallel doc? cf cs lq pr (initialJob f) fs0).final.status = "error" →
        ∃ m, (process_pdf_in_parallel doc? cf cs lq pr (initialJob f) fs0).final.error = some m)) ∧
    (((process_complete_pdf doc? unlinkOk (initialJob f) fs0).final.status = "completed" →
        (process_complete_pdf doc? unlinkOk (initialJob f) fs0).final.progress = 100 ∧
        (process_complete_pdf doc? unlinkOk (initialJob f) fs0).final.error = none) ∧
     ((process_complete_pdf doc? unlinkOk (initialJob f) fs0).final.status = "error" →
        ∃ m, (process_complete_pdf doc? unlinkOk (initialJob f) fs0).final.error = some m)) := by
  constructor
  · rcases parallel_final_cases doc? cf cs lq pr (initialJob f) fs0 with ⟨m, hs, he⟩ | ⟨hs, hp, he⟩
    · constructor
      · intro h
        rw [h] at hs
        exact absurd hs (by decide)
      · intro _
        exact ⟨m, he⟩
    · constructor
      · intro _
        exact ⟨hp, he⟩
      · intro h
        rw [h] at hs
        exact absurd hs (by decide)
  · rcases complete_final_cases doc? unlinkOk (initialJob f) fs0 with ⟨m, hs, he⟩ | ⟨hs, hp, he⟩
    · constructor
      · intro h
        rw [h] at hs
        exact absurd hs (by decide)
      · intro _
        exact ⟨m, he⟩
    · constructor
      · intro _
        exact ⟨hp, he⟩
      · intro h
        rw [h] at hs
        exact absurd hs (by decide)

/-- C3 witness: a concrete completed run of each processor, with progress
100 and no error in the final entry. -/
theorem final_status_invariants_witness :
    ((process_pdf_in_parallel (Except.ok (mkDoc 60)) (fun _ => none) 50 false false
        (initialJob "f") true).final.progress = 100 ∧
     (process_pdf_in_parallel (Except.ok (mkDoc 60)) (fun _ => none) 50 false false
        (initialJob "f") true).final.error = none) ∧
    ((process_complete_pdf (Except.ok (mkDoc 60)) true (initialJob "f") true).final.progress = 100 ∧
     (process_complete_pdf (Except.ok (mkDoc 60)) true (initialJob "f") true).final.error = none) :=
  ⟨((final_status_invariants (Except.ok (mkDoc 60)) (fun _ => none) 50 false false
      "f" true true).1).1 (by decide),
   ((final_status_invariants (Except.ok (mkDoc 60)) (fun _ => none) 50 false false
      "f" true true).2).1 (by decide)⟩

/-- C3 counterexample: on a 60-page document processed in parallel with
chunk size 50, the first chunk worker failing leaves the job Failed with
progress 35 — a Failed job whose progress is not 100, refuting the
claimed iff between `progress == 100` and terminal status. -/
theorem failed_progress_not_100 :
    (process_pdf_in_parallel (Except.ok (mkDoc 60)) failFirst 50 false false
        (initialJob "f") true).final.status = "error" ∧
    (process_pdf_in_parallel (Except.ok (mkDoc 60)) failFirst 50 false false
        (initialJob "f") true).final.progress = 35 ∧
    ¬ (process_pdf_in_parallel (Except.ok (mkDoc 60)) failFirst 50 false false
        (initialJob "f") true).final.progress = 100 := by
  refine ⟨by decide, by decide, by decide⟩

/-- C4 (amended): with a working delete, `process_complete_pdf` removes
the temporary file on every path (success and failure alike), but
`process_pdf_in_parallel` contains no deletion at all — it returns the
file-existence state unchanged on every path, so a job failing (or even
succeeding) on the parallel path leaves its temporary file behind. -/
theorem cleanup_spec (doc? : Except String Doc) (cf : Nat → Option String)
    (cs : Nat) (lq pr : Bool) (j0 : Job) (fs0 unlinkOk : Bool) :
    (unlinkOk = true → (process_complete_pdf doc? unlinkOk j0 fs0).fileExists = false) ∧
    (process_pdf_in_parallel doc? cf cs lq pr j0 fs0).fileExists = fs0 := by
  constructor
  · intro h
    subst h
    rcases doc? with e | doc
    · simp [process_complete_pdf]
    · simp only [process_complete_pdf]
      split
      · rfl
      · simp
  · rcases doc? with e | doc
    · rfl
    · simp only [process_pdf_in_parallel]
      split
      · rfl
      · rfl

/-- C4 witness: a concrete failing standard-path run deletes the file. -/
theorem cleanup_spec_witness :
    (process_complete_pdf (Except.error "cannot open") true (initialJob "f") true).fileExists
      = false :=
  (cleanup_spec (Except.error "cannot open") (fun _ => none) 50 false false
    (initialJob "f") true true).1 rfl

/-- C4 counterexample: a parallel-path job on a 60-page document whose
first chunk fails is marked Failed, yet its temporary file still exists —
no deletion happens anywhere in `process_pdf_in_parallel`. -/
theorem parallel_failure_leaves_file :
    (process_pdf_in_parallel (Except.ok (mkDoc 60)) failFirst 50 false false
        (initialJob "f") true).final.status = "error" ∧
    (process_pdf_in_parallel (Except.ok (mkDoc 60)) failFirst 50 false false
        (initialJob "f") true).fileExists = true ∧
    ¬ (process_pdf_in_parallel (Except.ok (mkDoc 60)) failFirst 50 false false
        (initialJob "f") true).fileExists = false := by
  refine ⟨by decide, by decide, by decide⟩

/-- C9 (amended): during the background chunked phase of
`process_pdf_in_parallel`, the progress recorded after the `k`-th of `n`
chunk results is consumed is `35 + floor(55 * k / n)` — the background
phase starts at P1 = 35 but the coefficient is 55, not `100 - P1 = 65` —
and after all `n` chunks the recorded value is 90; progress 100 is
written only by the finalisation step, not by chunk consumption. -/
theorem consume_progress_values (doc : Doc) (lq pr : Bool) (p c : Nat)
    (acc : ChunkResult) (j : Job) :
    ((consumeChunks doc (fun _ => none) lq pr (chunkPlan p c).length
        (chunkPlan p c) 0 acc j).1).map (fun x => x.progress)
      = (List.range' 1 (chunkPlan p c).length).map
          (fun k => 35 + (55 * k) / (chunkPlan p c).length) ∧
    (0 < (chunkPlan p c).length →
      (((consumeChunks doc (fun _ => none) lq pr (chunkPlan p c).length
          (chunkPlan p c) 0 acc j).1).map (fun x => x.progress)).getLast? = some 90) := by
  have h0 := consume_progress_map doc lq pr (chunkPlan p c).length (chunkPlan p c) 0 acc j
  constructor
  · simpa using h0
  · intro hn
    rw [h0]
    obtain ⟨m, hm⟩ : ∃ m, (chunkPlan p c).length = m + 1 :=
      ⟨(chunkPlan p c).length - 1, by omega⟩
    rw [hm, List.getLast?_map]
    rw [show (0 : Nat) + 1 = 1 from rfl, range'_getLast]
    simp only [Option.map_some']
    congr 1
    rw [show 1 + m = m + 1 from by omega, Nat.mul_div_cancel _ (by omega : 0 < m + 1)]

/-- C9 witness: on a 60-page document with chunk size 50 the two recorded
values are 62 and 90, and the value after the final chunk is 90. -/
theorem consume_progress_values_witness :
    (((consumeChunks (mkDoc 60) (fun _ => none) false false (chunkPlan 60 50).length
        (chunkPlan 60 50) 0 { text := [], pages := [] }
        (initialJob "f")).1).map (fun x => x.progress)).getLast? = some 90 :=
  (consume_progress_values (mkDoc 60) false false 60 50 { text := [], pages := [] }
    (initialJob "f")).2 (by decide)

/-- C9 counterexample: same run, the recorded values are `[62, 90]`; the
claim's formula `P1 + floor((100 - P1) * k / n)` with P1 = 35 predicts
`[67, 100]`, and in particular predicts 100 after the final chunk where
the code records 90. -/
theorem consume_progress_cex :
    ((consumeChunks (mkDoc 60) (fun _ => none) false false (chunkPlan 60 50).length
        (chunkPlan 60 50) 0 { text := [], pages := [] }
        (initialJob "f")).1).map (fun x => x.progress) = [62, 90] ∧
    35 + (100 - 35) * 2 / 2 = 100 ∧
    ¬ (90 : Nat) = 100 := by
  refine ⟨by decide, by decide, by decide⟩

/- Absorption helpers for C8. -/

theorem absorb_of_all (l : List Job) (h : ∀ x ∈ l, isTerminal x = true) :
    terminalAbsorbing l := by
  intro i j hi hj hij hterm
  exact h _ (List.get_mem l j hj)

theorem absorb_cons (a : Job) (l : List Job) (ha : isTerminal a = false)
    (hl : terminalAbsorbing l) : terminalAbsorbing (a :: l) := by
  intro i j hi hj hij hterm
  rcases i with _ | i
  · rw [show (a :: l).get ⟨0, hi⟩ = a from rfl, ha] at hterm
    exact absurd hterm (by decide)
  · rcases j with _ | j
    · omega
    · have hi2 : i < l.length := by
        simp only [List.length_cons] at hi
        omega
      have hj2 : j < l.length := by
        simp only [List.length_cons] at hj
        omega
      exact hl i j hi2 hj2 (by omega) hterm

/-- C8 (amended): a job record can still be written after its status
first turns terminal — the parallel finaliser writes `progress = 100` and
the combined result after having already written `status = "completed"`,
and a failing post-completion unlink flips a Completed entry to Failed —
but terminality itself is absorbing: in every trace of cache writes
produced by either background processor, every snapshot at or after a
terminal snapshot is terminal. -/
theorem terminal_is_absorbing (doc? : Except String Doc) (cf : Nat → Option String)
    (cs : Nat) (lq pr : Bool) (f : String) (fs0 unlinkOk : Bool) :
    terminalAbsorbing (process_pdf_in_parallel doc? cf cs lq pr (initialJob f) fs0).trace ∧
    terminalAbsorbing (process_complete_pdf doc? unlinkOk (initialJob f) fs0).trace := by
  constructor
  · rcases doc? with e | doc
    · apply absorb_of_all
      intro x hx
      rcases List.mem_cons.mp hx with h | h
      · subst h
        rfl
      · rcases List.mem_cons.mp h with h2 | h2
        · subst h2
          rfl
        · simp at h2
    · simp only [process_pdf_in_parallel]
      split
      · refine absorb_cons _ _ rfl (absorb_cons _ _ rfl (absorb_of_split _ _ ?_ ?_))
        · intro x hx
          have hst := (consume_trace_fields _ _ _ _ _ _ _ _ _ x hx).1
          simp only [isTerminal, hst]
          rfl
        · intro x hx
          rcases List.mem_cons.mp hx with h | h
          · subst h
            rfl
          · rcases List.mem_cons.mp h with h2 | h2
            · subst h2
              rfl
            · simp at h2
      · refine absorb_cons _ _ rfl (absorb_cons _ _ rfl (absorb_of_split _ _ ?_ ?_))
        · intro x hx
          have hst := (consume_trace_fields _ _ _ _ _ _ _ _ _ x hx).1
          simp only [isTerminal, hst]
          rfl
        · intro x hx
          rcases List.mem_cons.mp hx with h | h
          · subst h
            rfl
          · rcases List.mem_cons.mp h with h2 | h2
            · subst h2
              rfl
            · rcases List.mem_cons.mp h2 with h3 | h3
              · subst h3
                rfl
              · simp at h3
  · rcases doc? with e | doc
    · apply absorb_of_all
      intro x hx
      rcases List.mem_cons.mp hx with h | h
      · subst h
        rfl
      · simp at h
    · simp only [process_complete_pdf]
      split
      · refine absorb_cons _ _ rfl
          (absorb_cons _ _ rfl (absorb_cons _ _ rfl (absorb_of_split _ _ ?_ ?_)))
        · intro x hx
          have hst := (completeLoop_mem_fields _ _ x hx).1
          simp only [isTerminal, hst]
          rfl
        · intro x hx
          rcases List.mem_cons.mp hx with h | h
          · subst h
            rfl
          · simp at h
      · refine absorb_cons _ _ rfl
          (absorb_cons _ _ rfl (absorb_cons _ _ rfl (absorb_of_split _ _ ?_ ?_)))
        · intro x hx
          have hst := (completeLoop_mem_fields _ _ x hx).1
          simp only [isTerminal, hst]
          rfl
        · intro x hx
          rcases List.mem_cons.mp hx with h | h
          · subst h
            rfl
          · rcases List.mem_cons.mp h with h2 | h2
            · subst h2
              rfl
            · simp at h2

/-- C8 witness: concrete runs of both processors have terminal-absorbing
traces. -/
theorem terminal_is_absorbing_witness :
    terminalAbsorbing (process_pdf_in_parallel (Except.ok (mkDoc 1)) (fun _ => none) 50
        false false (initialJob "f") true).trace ∧
    terminalAbsorbing (process_complete_pdf (Except.ok (mkDoc 1)) true
        (initialJob "f") true).trace :=
  terminal_is_absorbing (Except.ok (mkDoc 1)) (fun _ => none) 50 false false "f" true true

/-- C8 counterexample: in the parallel finalisation of a 1-page document,
the cache snapshot at index 3 is already terminal (`status = "completed"`,
progress 90), yet the next write changes progress to 100 and the one after
that writes the result — writes to the job do occur after its status
became terminal. -/
theorem write_after_terminal :
    isTerminal ((process_pdf_in_parallel (Except.ok (mkDoc 1)) (fun _ => none) 50
        false false (initialJob "f") true).trace.getD 3 (initialJob "f")) = true ∧
    ¬ ((process_pdf_in_parallel (Except.ok (mkDoc 1)) (fun _ => none) 50
        false false (initialJob "f") true).trace.getD 4 (initialJob "f")).progress
      = ((process_pdf_in_parallel (Except.ok (mkDoc 1)) (fun _ => none) 50
        false false (initialJob "f") true).trace.getD 3 (initialJob "f")).progress ∧
    ¬ ((process_pdf_in_parallel (Except.ok (mkDoc 1)) (fun _ => none) 50
        false false (initialJob "f") true).trace.getD 5 (initialJob "f")).result
      = ((process_pdf_in_parallel (Except.ok (mkDoc 1)) (fun _ => none) 50
        false false (initialJob "f") true).trace.getD 3 (initialJob "f")).result := by
  refine ⟨by decide, by decide, by decide⟩

/-- C6 (amended): a job completed on the parallel path assembles, in
future-submission order (independent of worker finish order, since
`future.result()` is awaited in submission order), exactly one page
record per page with numbers `1, …, p` in strictly increasing order; a
job completed on the standard path (`process_complete_pdf`) stores only
the first `min(50, p)` page records, numbered `1, …, min(50, p)`. -/
theorem ordered_pages_spec (doc : Doc) (lq pr : Bool) (c : Nat) (f : String)
    (fs0 unlinkOk : Bool) (hc : 0 < c) :
    ((process_pdf_in_parallel (Except.ok doc) (fun _ => none) c lq pr
        (initialJob f) fs0).final.status = "completed" ∧
     (∃ r, (process_pdf_in_parallel (Except.ok doc) (fun _ => none) c lq pr
          (initialJob f) fs0).final.result = some r ∧
        r.pages.map (fun x => x.number) = List.range' 1 doc.pages.length ∧
        r.pages.length = doc.pages.length)) ∧
    ((process_complete_pdf (Except.ok doc) unlinkOk (initialJob f) fs0).final.pagesText
        = some (completePagesText doc (min 50 doc.pages.length)) ∧
     (completePagesText doc (min 50 doc.pages.length)).map (fun x => x.number)
        = List.range' 1 (min 50 doc.pages.length) ∧
     (completePagesText doc (min 50 doc.pages.length)).length
        = min 50 doc.pages.length) := by
  constructor
  · simp only [process_pdf_in_parallel]
    split
    next msg heq =>
      obtain ⟨r, hr, hp⟩ := consume_ok_pages doc lq pr
        (chunkPlan doc.pages.length c).length (chunkPlan doc.pages.length c) 0
        { text := [], pages := [] }
        { setProgress (initialJob f) 35 with pageCount := some doc.pages.length }
      rw [heq] at hr
      exact absurd hr (by simp)
    next acc heq =>
      obtain ⟨r, hr, hp⟩ := consume_ok_pages doc lq pr
        (chunkPlan doc.pages.length c).length (chunkPlan doc.pages.length c) 0
        { text := [], pages := [] }
        { setProgress (initialJob f) 35 with pageCount := some doc.pages.length }
      rw [heq] at hr
      have hacc : acc = r := by
        injection hr
      subst hacc
      have hnum : acc.pages.map (fun x => x.number) = List.range' 1 doc.pages.length := by
        rw [hp]
        simp only [List.nil_append, List.map_flatMap, List.map_map]
        have hcomp :
            ∀ se ∈ chunkPlan doc.pages.length c,
              (List.range' se.1 (se.2 - se.1)).map
                ((fun x : PageRec => x.number) ∘ chunkPageRec doc lq pr)
              = (List.range' se.1 (se.2 - se.1)).map (fun k => k + 1) := by
          intro se _
          apply List.map_congr_left
          intro k _
          simp [Function.comp, chunkPageRec_number]
        rw [List.flatMap_congr hcomp]
        rw [← List.map_flatMap]
        rw [show (chunkPlan doc.pages.length c) = chunkPlanAux c doc.pages.length
              doc.pages.length 0 from rfl]
        rw [chunkPlanAux_flat c doc.pages.length hc doc.pages.length 0 (by omega)]
        rw [Nat.sub_zero, range'_map_succ]
      refine ⟨rfl, acc, rfl, hnum, ?_⟩
      have h2 := congrArg List.length hnum
      simpa using h2
  · refine ⟨?_, ?_, ?_⟩
    · simp only [process_complete_pdf]
      split
      · rfl
      · rfl
    · simp only [completePagesText, List.map_map]
      have hcomp : ((fun x : PageRec => x.number) ∘ fun i =>
          { number := i + 1, text := pyTruncate2000 (pageText doc i) : PageRec })
          = fun i => i + 1 := by
        funext i
        rfl
      rw [hcomp, List.range_eq_range', range'_map_succ]
    · simp [completePagesText]

/-- C6 witness: a 60-page document processed with chunk size 50 on the
parallel path yields 60 page records numbered 1 to 60 in order, and on
the standard path 50 records numbered 1 to 50. -/
theorem ordered_pages_spec_witness :
    0 < 50 ∧
    (((process_pdf_in_parallel (Except.ok (mkDoc 60)) (fun _ => none) 50 false false
        (initialJob "f") true).final.status = "completed" ∧
      (∃ r, (process_pdf_in_parallel (Except.ok (mkDoc 60)) (fun _ => none) 50 false false
          (initialJob "f") true).final.result = some r ∧
        r.pages.map (fun x => x.number) = List.range' 1 (mkDoc 60).pages.length ∧
        r.pages.length = (mkDoc 60).pages.length)) ∧
     ((process_complete_pdf (Except.ok (mkDoc 60)) true (initialJob "f") true).final.pagesText
        = some (completePagesText (mkDoc 60) (min 50 (mkDoc 60).pages.length)) ∧
      (completePagesText (mkDoc 60) (min 50 (mkDoc 60).pages.length)).map (fun x => x.number)
        = List.range' 1 (min 50 (mkDoc 60).pages.length) ∧
      (completePagesText (mkDoc 60) (min 50 (mkDoc 60).pages.length)).length
        = min 50 (mkDoc 60).pages.length)) :=
  ⟨by decide, ordered_pages_spec (mkDoc 60) false false 50 "f" true true (by decide)⟩

/-- C6 counterexample: a 51-page document that takes the standard
background path (e.g. submitted with a chunk size larger than its page
count) reaches Completed with `pageCount = 51` but only 50 page records —
not one record per page. -/
theorem complete_truncates_pages :
    (process_complete_pdf (Except.ok (mkDoc 51)) true (initialJob "f") true).final.status
      = "completed" ∧
    (process_complete_pdf (Except.ok (mkDoc 51)) true (initialJob "f") true).final.pageCount
      = some 51 ∧
    ((process_complete_pdf (Except.ok (mkDoc 51)) true
        (initialJob "f") true).final.pagesText.getD []).length = 50 ∧
    ¬ ((process_complete_pdf (Except.ok (mkDoc 51)) true
        (initialJob "f") true).final.pagesText.getD []).length = 51 := by
  refine ⟨by decide, by decide, by decide, by decide⟩

end RS
